import Mathlib

/-!
Shallow embedding of the portfolio content layer (`src/App.tsx`) and proofs
about its specified behaviour.

The embedding covers:
* the thumbnail resolver (`getYoutubeId` / `getThumbnail`);
* the content data model (`WorkItem`, `CareerItem`, `SiteData`);
* a model of the JSON serialization used by the persistence layer
  (`JSON.stringify` / `JSON.parse` on the fixed `SiteData` schema);
* the admin/editing state machine (`handleAdminTrigger`, the field
  mutators, `saveToLocal`, `resetToDefault`, `handlePasswordSubmit`,
  `handleFileUpload` completion), including the JavaScript object-aliasing
  semantics: career and work items live in an explicit heap of cells, and
  `SiteData` values reachable from React state are lists of references into
  that heap, so that in-place mutations such as `newC[idx].date = v`
  are modelled faithfully.
-/

namespace Portfolio

/-! ## Thumbnail resolver

Source (`App.tsx`):

```
const getYoutubeId = (url: string) => {
  const regExp = /^.*(youtu.be\/|v\/|u\/\w\/|embed\/|watch\?v=|&v=)([^#&?]*).*/;
  const match = url.match(regExp);
  return (match && match[2].length === 11) ? match[2] : null;
};
```

With a greedy `^.*` prefix, the regex matches iff one of the six
alternatives occurs in the string, and group 2 is the run of characters not
in `#&?` that follows the *last* occurrence of an alternative (the greedy
prefix backtracks from the right; the alternatives start with pairwise
distinct characters, so the choice at a given position is unambiguous).
The JavaScript `.` excludes newlines; the inputs of interest (URLs) contain
none, and the model treats `.` as matching any character.
-/

/-- JavaScript `\w`: ASCII letters, digits, underscore. -/
def isWordChar (c : Char) : Bool := c.isAlphanum || c = '_'

/-- Try the six regex alternatives at the head of the string, in source
order; on success, return the remaining characters.  Alternatives begin
with pairwise distinct characters, so at most one applies. -/
def tryAlts : List Char → Option (List Char)
  | 'y' :: 'o' :: 'u' :: 't' :: 'u' :: _ :: 'b' :: 'e' :: '/' :: rest => some rest
  | 'v' :: '/' :: rest => some rest
  | 'u' :: '/' :: c :: '/' :: rest => if isWordChar c then some rest else none
  | 'e' :: 'm' :: 'b' :: 'e' :: 'd' :: '/' :: rest => some rest
  | 'w' :: 'a' :: 't' :: 'c' :: 'h' :: '?' :: 'v' :: '=' :: rest => some rest
  | '&' :: 'v' :: '=' :: rest => some rest
  | _ => none

/-- Position chosen by the greedy `^.*` prefix: the *last* position at which
an alternative matches; returns the characters following the alternative. -/
def lastMatch : List Char → Option (List Char)
  | [] => none
  | c :: rest =>
    match lastMatch rest with
    | some r => some r
    | none => tryAlts (c :: rest)

/-- Characters excluded by the capture group `[^#&?]*`. -/
def isStopChar (c : Char) : Bool := c == '#' || c == '&' || c == '?'

/-- Group 2 of the regex: the maximal run of non-`#&?` characters. -/
def groupTwo (rest : List Char) : List Char :=
  rest.takeWhile (fun c => !isStopChar c)

/-- The raw extracted identifier (group 2 of the regex match), with no
length restriction; `none` when the regex does not match at all. -/
def extractId (url : String) : Option String :=
  (lastMatch url.data).map (fun rest => String.mk (groupTwo rest))

/-- `getYoutubeId` from the source: the extracted identifier if its length
is exactly 11, else `null`. -/
def getYoutubeId (url : String) : Option String :=
  match lastMatch url.data with
  | some rest =>
    let g := groupTwo rest
    if g.length = 11 then some (String.mk g) else none
  | none => none

/-- `WorkItem` from the source data model. -/
structure WorkItem where
  id : Nat
  title : String
  img : String
  url : String
deriving DecidableEq

/-- The fixed generic placeholder reference from the source. -/
def placeholderRef : String := "https://placehold.co/600x400/111/333?text=NO+IMAGE"

/-- Canonical thumbnail URL construction from the source. -/
def thumbUrl (ytId : String) : String :=
  "https://img.youtube.com/vi/" ++ ytId ++ "/maxresdefault.jpg"

/-- `getThumbnail` from the source:

```
const getThumbnail = (work: WorkItem) => {
  if (work.img) return work.img;
  const ytId = getYoutubeId(work.url);
  if (ytId) return `https://img.youtube.com/vi/.../maxresdefault.jpg`;
  return 'https://placehold.co/600x400/111/333?text=NO+IMAGE';
};
```

A string is truthy in JavaScript iff it is non-empty. -/
def getThumbnail (work : WorkItem) : String :=
  if work.img ≠ "" then work.img
  else
    match getYoutubeId work.url with
    | some ytId => thumbUrl ytId
    | none => placeholderRef

/-! ## Data model -/

/-- `CareerItem` from the source data model. -/
structure CareerItem where
  date : String
  title : String
  role : String
deriving DecidableEq

/-- `SiteData` as a plain value (the shape of the committed document). -/
structure SiteData where
  profileImg : String
  bio : String
  career : List CareerItem
  works : List WorkItem
deriving DecidableEq

/-! ## Heap model of JavaScript object identity

In the source, career and work items are JavaScript objects.  The admin
mutators copy arrays with spreads (`[...editingData.career]`) but then
assign into the shared element objects (`newC[idx].date = v`), so element
objects are aliased between `data`, `editingData` and the module constant
`DEFAULT_DATA`.  To model this, item objects live in heaps of cells and a
`SiteData` reachable from React state is a `SiteDataRef` holding indices
into those heaps.  Allocation only appends, so references are stable. -/

/-- The heap of item objects. -/
structure Heap where
  careerCells : List CareerItem
  workCells : List WorkItem
deriving DecidableEq

/-- A `SiteData` object as held by React state: scalar fields by value
(they are never mutated in place; every update builds a fresh top-level
object with a spread), item objects by reference. -/
structure SiteDataRef where
  profileImg : String
  bio : String
  career : List Nat
  works : List Nat
deriving DecidableEq

/-- Dereference a career-item cell (in well-formed states the index is in
bounds; the default is irrelevant there). -/
def derefCareer (h : Heap) (r : Nat) : CareerItem :=
  h.careerCells.getD r ⟨"", "", ""⟩

/-- Dereference a work-item cell. -/
def derefWork (h : Heap) (r : Nat) : WorkItem :=
  h.workCells.getD r ⟨0, "", "", ""⟩

/-- The plain `SiteData` value denoted by a reference structure. -/
def derefSite (h : Heap) (s : SiteDataRef) : SiteData :=
  ⟨s.profileImg, s.bio, s.career.map (derefCareer h), s.works.map (derefWork h)⟩

/-! ## Default data (`DEFAULT_DATA` in the source) -/

def defaultProfileImg : String :=
  "https://images.unsplash.com/photo-1573496359142-b8d87734a5a2?q=80&w=1000&auto=format&fit=crop"

def defaultBio : String :=
  "복잡한 정보를 누구나 이해할 수 있는 영상으로 만듭니다.\n단순한 나열을 넘어 구조와 맥락을 중심으로 편집합니다."

/-- The career items of `DEFAULT_DATA`, as heap cells. -/
def defaultCareerCells : List CareerItem :=
  [⟨"2022 — 2025", "한국탐사저널리즘센터", "뉴스 및 다큐멘터리 편집 총괄"⟩,
   ⟨"2021", "경기콘텐츠진흥원", "사업기획 및 프로젝트 총괄"⟩,
   ⟨"2012 — 2017", "농협은행", "수신 및 은행 업무 전반"⟩]

/-- The work items of `DEFAULT_DATA`, as heap cells. -/
def defaultWorkCells : List WorkItem :=
  [⟨1, "Visual Archive_1", "", "https://www.youtube.com/watch?v=aqz-KE-bpKQ"⟩,
   ⟨2, "Visual Archive_2", "", "https://www.youtube.com/watch?v=dQw4w9WgXcQ"⟩,
   ⟨3, "Visual Archive_3", "", ""⟩,
   ⟨4, "Visual Archive_4", "", ""⟩,
   ⟨5, "Visual Archive_5", "", ""⟩,
   ⟨6, "Visual Archive_6", "", ""⟩]

/-- The module-level `DEFAULT_DATA` object: its item objects occupy the
first cells of the initial heap, and `setData(DEFAULT_DATA)` installs this
same reference structure (no copy), exactly as in JavaScript. -/
def defaultRef : SiteDataRef :=
  ⟨defaultProfileImg, defaultBio, [0, 1, 2], [0, 1, 2, 3, 4, 5]⟩

/-- The plain value of `DEFAULT_DATA` as initially written in the source
(the "built-in default constant" of the specification). -/
def defaultSiteData : SiteData :=
  ⟨defaultProfileImg, defaultBio, defaultCareerCells, defaultWorkCells⟩

/-! ## JSON model

The persistence layer stores `JSON.stringify(data)` under one local-storage
key and reads it back with `JSON.parse`.  These builtins are modelled by an
executable serializer and parser over a JSON value type, with the full JSON
syntax on the parsing side: the complete number grammar (optional minus, no
leading zeros, optional fraction and exponent), insignificant whitespace
around tokens, and the string escapes.  Number tokens are represented by
their literal structure (`NumLit`) rather than by IEEE doubles: acceptance
coincides with `JSON.parse`, and the only numbers the data model ever
serializes are plain non-negative integers (`WorkItem.id`).  Remaining
deliberate simplifications, none of which changes which snapshots parse:
objects are association lists (duplicate keys are kept rather than
last-wins-collapsed) and a `\uXXXX` escape denoting a lone surrogate maps
to a default scalar (Lean `Char` has no surrogates). -/

/-- A JSON number literal: sign, integer part, fraction digits (empty when
no fraction is present) and exponent (minus flag, first digit, remaining
digits).  `Fin 10` digits make every representable literal renderable and
re-parseable. -/
structure NumLit where
  neg : Bool
  intPart : Nat
  frac : List (Fin 10)
  exp : Option (Bool × Fin 10 × List (Fin 10))
deriving DecidableEq

/-- The number literal of a plain non-negative integer, the only kind the
data model serializes. -/
def natLit (n : Nat) : NumLit := ⟨false, n, [], none⟩

/-- JSON values. -/
inductive JValue where
  | null
  | bool (b : Bool)
  | num (l : NumLit)
  | str (s : String)
  | arr (elems : List JValue)
  | obj (members : List (String × JValue))

/-- JSON insignificant whitespace: space, tab, line feed, carriage
return — exactly the four characters `JSON.parse` skips. -/
def isJsonWs (c : Char) : Bool := c = ' ' || c = '\t' || c = '\n' || c = '\x0d'

/-- Drop leading JSON whitespace. -/
def skipWs : List Char → List Char
  | [] => []
  | c :: cs => if isJsonWs c then skipWs cs else c :: cs

/-- Decimal digit character. -/
def digitChar (n : Nat) : Char := Char.ofNat (48 + n)

/-- The digit value of a character (correct on `0`-`9`; total via `% 10`,
so that no proof obligation arises at the call sites). -/
def digitVal (c : Char) : Fin 10 := ⟨(c.toNat - 48) % 10, Nat.mod_lt _ (by omega)⟩

/-- Render a run of digits. -/
def renderDigits (ds : List (Fin 10)) : List Char := ds.map (fun d => digitChar d.val)

/-- Lowercase hexadecimal digit character. -/
def hexChar (n : Nat) : Char :=
  if n < 10 then Char.ofNat (48 + n) else Char.ofNat (87 + n)

/-- `JSON.stringify` escaping of one string character. -/
def escChar (c : Char) : List Char :=
  if c = '"' then ['\\', '"']
  else if c = '\\' then ['\\', '\\']
  else if c = '\n' then ['\\', 'n']
  else if c = '\r' then ['\\', 'r']
  else if c = '\t' then ['\\', 't']
  else if c.toNat = 8 then ['\\', 'b']
  else if c.toNat = 12 then ['\\', 'f']
  else if c.toNat < 32 then ['\\', 'u', '0', '0', hexChar (c.toNat / 16), hexChar (c.toNat % 16)]
  else [c]

def escList : List Char → List Char
  | [] => []
  | c :: cs => escChar c ++ escList cs

/-- A JSON string literal. -/
def strLit (s : String) : List Char := '"' :: (escList s.data ++ ['"'])

/-- Decimal digits of a natural number, most significant first. -/
def natDigits (n : Nat) : List Char :=
  if _h : n < 10 then [digitChar n]
  else natDigits (n / 10) ++ [digitChar (n % 10)]
decreasing_by
  exact Nat.div_lt_self (by omega) (by omega)

/-- Render the fraction part (empty list means no fraction). -/
def renderFrac : List (Fin 10) → List Char
  | [] => []
  | ds => '.' :: renderDigits ds

/-- Render the exponent part. -/
def renderExp : Option (Bool × Fin 10 × List (Fin 10)) → List Char
  | none => []
  | some (sgn, d0, ds) =>
    'e' :: ((if sgn then ['-'] else []) ++ (digitChar d0.val :: renderDigits ds))

/-- Render a number literal: optional minus, integer digits, optional
`.digits`, optional `e[-]digits`. -/
def renderNum (l : NumLit) : List Char :=
  (if l.neg then ['-'] else []) ++ natDigits l.intPart ++ renderFrac l.frac ++ renderExp l.exp

mutual

/-- Serialization of a JSON value (insertion-order object keys, no
whitespace — the output shape of `JSON.stringify`). -/
def jstr : JValue → List Char
  | .null => ("null").data
  | .bool true => ("true").data
  | .bool false => ("false").data
  | .num l => renderNum l
  | .str s => strLit s
  | .arr [] => ['[', ']']
  | .arr (x :: xs) => '[' :: (jstrElems x xs ++ [']'])
  | .obj [] => ['\x7b', '\x7d']
  | .obj (m :: ms) => '\x7b' :: (jstrMembers m ms ++ ['\x7d'])
termination_by v => sizeOf v

def jstrElems : JValue → List JValue → List Char
  | x, [] => jstr x
  | x, y :: rest => jstr x ++ ',' :: jstrElems y rest
termination_by x xs => 1 + sizeOf x + sizeOf xs

def jstrMembers : String × JValue → List (String × JValue) → List Char
  | (k, v), [] => strLit k ++ ':' :: jstr v
  | (k, v), m :: rest => strLit k ++ ':' :: jstr v ++ ',' :: jstrMembers m rest
termination_by m ms => 1 + sizeOf m + sizeOf ms

end

/-- `JSON.stringify` on the model. -/
def jsonStringify (v : JValue) : String := String.mk (jstr v)

def isHexDigit (c : Char) : Bool :=
  c.isDigit || ('a' ≤ c && c ≤ 'f') || ('A' ≤ c && c ≤ 'F')

def hexVal (c : Char) : Nat :=
  if c.isDigit then c.toNat - 48
  else if 'a' ≤ c && c ≤ 'f' then c.toNat - 87
  else c.toNat - 55

/-- Parse the body of a JSON string literal (after the opening quote);
returns the decoded characters and the input after the closing quote. -/
def pStringBody : List Char → Option (List Char × List Char)
  | [] => none
  | c :: rest =>
    if c = '"' then some ([], rest)
    else if c = '\\' then
      match rest with
      | [] => none
      | e :: rest1 =>
        if e = '"' then (pStringBody rest1).map (fun p => ('"' :: p.1, p.2))
        else if e = '\\' then (pStringBody rest1).map (fun p => ('\\' :: p.1, p.2))
        else if e = '/' then (pStringBody rest1).map (fun p => ('/' :: p.1, p.2))
        else if e = 'n' then (pStringBody rest1).map (fun p => ('\n' :: p.1, p.2))
        else if e = 'r' then (pStringBody rest1).map (fun p => ('\r' :: p.1, p.2))
        else if e = 't' then (pStringBody rest1).map (fun p => ('\t' :: p.1, p.2))
        else if e = 'b' then (pStringBody rest1).map (fun p => (Char.ofNat 8 :: p.1, p.2))
        else if e = 'f' then (pStringBody rest1).map (fun p => (Char.ofNat 12 :: p.1, p.2))
        else if e = 'u' then
          match rest1 with
          | h1 :: h2 :: h3 :: h4 :: rest2 =>
            if isHexDigit h1 && isHexDigit h2 && isHexDigit h3 && isHexDigit h4 then
              (pStringBody rest2).map (fun p =>
                (Char.ofNat (((hexVal h1 * 16 + hexVal h2) * 16 + hexVal h3) * 16 + hexVal h4) :: p.1, p.2))
            else none
          | _ => none
        else none
    else if c.toNat < 32 then none
    else (pStringBody rest).map (fun p => (c :: p.1, p.2))

/-- Consume a run of decimal digits, accumulating their value. -/
def pDigits : List Char → Nat → Nat × List Char
  | [], acc => (acc, [])
  | c :: cs, acc =>
    if c.isDigit then pDigits cs (acc * 10 + (c.toNat - 48)) else (acc, c :: cs)

/-- Consume a run of decimal digits as a digit list. -/
def pDigitsF : List Char → List (Fin 10) × List Char
  | [] => ([], [])
  | c :: cs =>
    if c.isDigit then
      let p := pDigitsF cs
      (digitVal c :: p.1, p.2)
    else ([], c :: cs)

/-- Optional leading minus of a number token. -/
def pSign : List Char → Bool × List Char
  | [] => (false, [])
  | c :: t => if c = '-' then (true, t) else (false, c :: t)

/-- Integer part of a JSON number: a single `0`, or a nonzero digit
followed by more digits.  A `0` followed by further digits stops after the
`0`; the leftover digit then fails in every surrounding context, exactly as
`JSON.parse` rejects leading-zero numerals. -/
def pIntPart : List Char → Option (Nat × List Char)
  | [] => none
  | c :: t =>
    if c = '0' then some (0, t)
    else if c.isDigit then some ((pDigits (c :: t) 0).1, (pDigits (c :: t) 0).2)
    else none

/-- Optional fraction: `.` followed by at least one digit; anything else
(including a bare `.`) consumes nothing. -/
def pFracPart : List Char → List (Fin 10) × List Char
  | [] => ([], [])
  | c :: u =>
    if c = '.' then
      match u with
      | [] => ([], ['.'])
      | d :: _ => if d.isDigit then pDigitsF u else ([], '.' :: u)
    else ([], c :: u)

/-- Optional exponent sign: `+` and nothing both mean positive. -/
def pExpSign : List Char → Bool × List Char
  | [] => (false, [])
  | c :: t =>
    if c = '+' then (false, t)
    else if c = '-' then (true, t)
    else (false, c :: t)

/-- Optional exponent: `e`/`E`, optional sign, at least one digit; anything
else consumes nothing. -/
def pExpPart : List Char → Option (Bool × Fin 10 × List (Fin 10)) × List Char
  | [] => (none, [])
  | c :: u =>
    if c = 'e' || c = 'E' then
      match pExpSign u with
      | (sgn, u1) =>
        match u1 with
        | [] => (none, c :: u)
        | d :: w =>
          if d.isDigit then (some (sgn, digitVal d, (pDigitsF w).1), (pDigitsF w).2)
          else (none, c :: u)
    else (none, c :: u)

/-- A JSON number token (the caller has checked that the head is a digit
or a minus). -/
def pNum (cs : List Char) : Option (NumLit × List Char) :=
  match pSign cs with
  | (neg, cs1) =>
    match pIntPart cs1 with
    | none => none
    | some (ip, cs2) =>
      match pFracPart cs2 with
      | (fr, cs3) =>
        match pExpPart cs3 with
        | (ex, cs4) => some (⟨neg, ip, fr, ex⟩, cs4)

/-- One step of the fueled recursive-descent JSON value parser, given the
element-list and member-list parsers of the previous fuel level. -/
def pValueBody (pE : List Char → Option (List JValue × List Char))
    (pM : List Char → Option (List (String × JValue) × List Char)) :
    List Char → Option (JValue × List Char)
  | [] => none
  | c :: rest =>
    if c = 'n' then
      match rest with
      | 'u' :: 'l' :: 'l' :: rest1 => some (.null, rest1)
      | _ => none
    else if c = 't' then
      match rest with
      | 'r' :: 'u' :: 'e' :: rest1 => some (.bool true, rest1)
      | _ => none
    else if c = 'f' then
      match rest with
      | 'a' :: 'l' :: 's' :: 'e' :: rest1 => some (.bool false, rest1)
      | _ => none
    else if c = '"' then
      (pStringBody rest).map (fun p => (.str (String.mk p.1), p.2))
    else if c = '[' then
      match skipWs rest with
      | [] => none
      | r1 :: rest1 =>
        if r1 = ']' then some (.arr [], rest1)
        else (pE (r1 :: rest1)).map (fun p => (.arr p.1, p.2))
    else if c = '\x7b' then
      match skipWs rest with
      | [] => none
      | r1 :: rest1 =>
        if r1 = '\x7d' then some (.obj [], rest1)
        else (pM (r1 :: rest1)).map (fun p => (.obj p.1, p.2))
    else if c.isDigit || c = '-' then
      match pNum (c :: rest) with
      | some p => some (.num p.1, p.2)
      | none => none
    else none

/-- One step of the parser for a non-empty comma-separated element list up
to the closing `]`. -/
def pElemsBody (pV : List Char → Option (JValue × List Char))
    (pE : List Char → Option (List JValue × List Char))
    (cs : List Char) : Option (List JValue × List Char) :=
  match pV cs with
  | none => none
  | some (v, rest) =>
    match skipWs rest with
    | [] => none
    | s :: rest1 =>
      if s = ',' then (pE (skipWs rest1)).map (fun p => (v :: p.1, p.2))
      else if s = ']' then some ([v], rest1)
      else none

/-- One step of the parser for a non-empty object member list up to the
closing brace. -/
def pMembersBody (pV : List Char → Option (JValue × List Char))
    (pM : List Char → Option (List (String × JValue) × List Char)) :
    List Char → Option (List (String × JValue) × List Char)
  | [] => none
  | c :: rest =>
    if c = '"' then
      match pStringBody rest with
      | none => none
      | some (k, rest1) =>
        match skipWs rest1 with
        | [] => none
        | s :: rest2 =>
          if s = ':' then
            match pV (skipWs rest2) with
            | none => none
            | some (v, rest3) =>
              match skipWs rest3 with
              | [] => none
              | s2 :: rest4 =>
                if s2 = ',' then
                  (pM (skipWs rest4)).map (fun p => ((String.mk k, v) :: p.1, p.2))
                else if s2 = '\x7d' then some ([(String.mk k, v)], rest4)
                else none
          else none
    else none

/-- The three parsers at each fuel level, tied by structural recursion on
the fuel (so that concrete parses evaluate definitionally). -/
def pStep : Nat →
    (List Char → Option (JValue × List Char)) ×
    (List Char → Option (List JValue × List Char)) ×
    (List Char → Option (List (String × JValue) × List Char))
  | 0 => (fun _ => none, fun _ => none, fun _ => none)
  | f + 1 =>
    let p := pStep f
    (pValueBody p.2.1 p.2.2, pElemsBody p.1 p.2.1, pMembersBody p.1 p.2.2)

/-- Fueled JSON value parser. -/
def pValue (f : Nat) : List Char → Option (JValue × List Char) := (pStep f).1

/-- Fueled parser for non-empty element lists. -/
def pElems (f : Nat) : List Char → Option (List JValue × List Char) := (pStep f).2.1

/-- Fueled parser for non-empty member lists. -/
def pMembers (f : Nat) : List Char → Option (List (String × JValue) × List Char) :=
  (pStep f).2.2

/-- `JSON.parse` on the model: skip surrounding whitespace, parse one
value, and require the whole input to be consumed.  The fuel `2·|s| + 2` is
sufficient for every serializer output. -/
def jsonParse (s : String) : Option JValue :=
  match pValue (2 * s.data.length + 2) (skipWs s.data) with
  | some (v, r) => if skipWs r = [] then some v else none
  | none => none

/-- `true` when the input does not begin with a decimal digit (the shape of
every continuation that follows a digit run). -/
def headNotDigit : List Char → Bool
  | [] => true
  | c :: _ => !c.isDigit

/-- `true` when the input cannot extend a number token: it does not begin
with a digit, a decimal point, or an exponent marker — the shape of every
continuation that follows a serialized number. -/
def numBoundary : List Char → Bool
  | [] => true
  | c :: _ => !(c.isDigit || c = '.' || c = 'e' || c = 'E')

mutual

/-- Fuel measure of a JSON value: an upper bound on the parser fuel needed
to parse its serialization. -/
def jmV : JValue → Nat
  | .arr xs => 1 + jmE xs
  | .obj ms => 1 + jmM ms
  | _ => 1
termination_by v => sizeOf v

def jmE : List JValue → Nat
  | [] => 1
  | x :: xs => 1 + jmV x + jmE xs
termination_by xs => sizeOf xs

def jmM : List (String × JValue) → Nat
  | [] => 1
  | (_, v) :: ms => 1 + jmV v + jmM ms
termination_by ms => sizeOf ms

end

/-! ## `SiteData` as JSON -/

def careerToJson (c : CareerItem) : JValue :=
  .obj [("date", .str c.date), ("title", .str c.title), ("role", .str c.role)]

def workToJson (w : WorkItem) : JValue :=
  .obj [("id", .num (natLit w.id)), ("title", .str w.title), ("img", .str w.img),
        ("url", .str w.url)]

/-- The JSON image of a `SiteData` value (the object-graph shape that
`JSON.stringify` walks, with insertion-order keys). -/
def siteDataToJson (d : SiteData) : JValue :=
  .obj [("profileImg", .str d.profileImg), ("bio", .str d.bio),
        ("career", .arr (d.career.map careerToJson)),
        ("works", .arr (d.works.map workToJson))]

def careerOfJson : JValue → Option CareerItem
  | .obj [("date", .str d), ("title", .str t), ("role", .str r)] => some ⟨d, t, r⟩
  | _ => none

def workOfJson : JValue → Option WorkItem
  | .obj [("id", .num ⟨false, i, [], none⟩), ("title", .str t), ("img", .str im),
      ("url", .str u)] =>
    some ⟨i, t, im, u⟩
  | _ => none

/-- Traverse a list under `Option`. -/
def seqOption (g : α → Option β) : List α → Option (List β)
  | [] => some []
  | x :: xs =>
    match g x with
    | none => none
    | some y =>
      match seqOption g xs with
      | none => none
      | some ys => some (y :: ys)

/-- Recover a structurally valid `SiteData` from a JSON value. -/
def siteDataOfJson : JValue → Option SiteData
  | .obj [("profileImg", .str p), ("bio", .str b), ("career", .arr cs), ("works", .arr ws)] =>
    match seqOption careerOfJson cs, seqOption workOfJson ws with
    | some cl, some wl => some ⟨p, b, cl, wl⟩
    | _, _ => none
  | _ => none

/-- A persisted snapshot string is "parseable as `SiteData`" when it is
syntactically valid JSON whose value has the `SiteData` structure. -/
def parseAsSiteData (s : String) : Option SiteData := (jsonParse s).bind siteDataOfJson

/-- Result of the load effect: either the in-memory value is kept (with or
without an error diagnostic) or the parsed JSON value is installed. -/
inductive LoadOutcome where
  | kept (diagnostic : Bool)
  | loaded (v : JValue)

/-- The load `useEffect` from the source:

```
const saved = localStorage.getItem('aeju_portfolio_data');
if (saved) {
  try {
    const parsed = JSON.parse(saved);
    setData(parsed); setEditingData(parsed);
  } catch (e) { console.error("Failed to parse saved data", e); }
}
```

`if (saved)` is a JavaScript truthiness test: both a missing snapshot and
an empty-string snapshot skip the block entirely, keeping the default
without a diagnostic; otherwise a JSON syntax error is caught (diagnostic
logged, default kept), and any syntactically valid JSON value is installed
verbatim, with no `SiteData` validation. -/
def jsonLoadOutcome : Option String → LoadOutcome
  | none => .kept false
  | some s =>
    if s = "" then .kept false
    else
      match jsonParse s with
      | some v => .loaded v
      | none => .kept true

/-! ## Application state machine

React state of the `App` component, together with the heap and the
persisted snapshot (`localStorage`, key `aeju_portfolio_data`).  User
notices (`alert`) are returned alongside the state by the operations that
emit them; `window.confirm` and the success of `localStorage.setItem` and
the clock reading `Date.now()` are external inputs, passed as parameters. -/
structure AppState where
  heap : Heap
  data : SiteDataRef
  editing : SiteDataRef
  isAdminOpen : Bool
  isAuth : Bool
  passInput : String
  storage : Option String
deriving DecidableEq

/-- Initial state: `useState(DEFAULT_DATA)` for both `data` and
`editingData`, gate closed, empty snapshot store. -/
def initState : AppState :=
  ⟨⟨defaultCareerCells, defaultWorkCells⟩, defaultRef, defaultRef,
   false, false, "", none⟩

/-- `handleAdminTrigger`: `setEditingData(data)` (no copy — the working
value aliases the committed one), open the modal, clear the key input. -/
def handleAdminTrigger (st : AppState) : AppState :=
  { st with editing := st.data, isAdminOpen := true, passInput := "" }

/-- The fixed shared secret compared against admin input. -/
def adminSecret : String := "0818"

/-- `handlePasswordSubmit`: exact string comparison against the secret;
on failure, alert and clear the input.  Returns the emitted notices. -/
def handlePasswordSubmit (st : AppState) : AppState × List String :=
  if st.passInput = adminSecret then ({ st with isAuth := true }, [])
  else ({ st with passInput := "" }, ["Key가 올바르지 않습니다."])

/-- `closeAdmin` (the CANCEL / EXIT path): close modal, drop auth, clear
the key input.  The working copy variable is left as-is; the committed
`data` is not assigned. -/
def closeAdmin (st : AppState) : AppState :=
  { st with isAdminOpen := false, isAuth := false, passInput := "" }

/-- Bio textarea `onChange`: `setEditingData({...editingData, bio: v})`. -/
def setBio (v : String) (st : AppState) : AppState :=
  { st with editing := { st.editing with bio := v } }

/-- Profile-image URL input `onChange`:
`setEditingData({...editingData, profileImg: v})`. -/
def setProfileImage (v : String) (st : AppState) : AppState :=
  { st with editing := { st.editing with profileImg := v } }

/-- The three editable fields of a career item. -/
inductive CareerField where
  | date
  | title
  | role
deriving DecidableEq

def setCareerField (f : CareerField) (v : String) (c : CareerItem) : CareerItem :=
  match f with
  | .date => { c with date := v }
  | .title => { c with title := v }
  | .role => { c with role := v }

/-- Career-item input `onChange`:

```
const newC = [...editingData.career];
newC[idx].date = e.target.value;
setEditingData({...editingData, career: newC});
```

The spread copies the *array* but not its element objects, so the
assignment mutates the shared heap cell in place; the reference list of the
working copy is unchanged.  (In the browser an out-of-range `idx` would
throw; the handlers are only ever invoked with in-range indices, and the
model leaves the state unchanged in that case.) -/
def updateCareerItem (idx : Nat) (f : CareerField) (v : String) (st : AppState) : AppState :=
  match st.editing.career.get? idx with
  | some r =>
    { st with heap :=
        { st.heap with careerCells :=
            st.heap.careerCells.set r (setCareerField f v (derefCareer st.heap r)) } }
  | none => st

/-- The three editable text fields of a work item (`id` is never edited). -/
inductive WorkField where
  | title
  | img
  | url
deriving DecidableEq

def setWorkField (f : WorkField) (v : String) (w : WorkItem) : WorkItem :=
  match f with
  | .title => { w with title := v }
  | .img => { w with img := v }
  | .url => { w with url := v }

/-- Work-item input `onChange` (`newW[idx].title = v` after a spread):
same in-place mutation of the shared heap cell as `updateCareerItem`. -/
def updateWorkField (idx : Nat) (f : WorkField) (v : String) (st : AppState) : AppState :=
  match st.editing.works.get? idx with
  | some r =>
    { st with heap :=
        { st.heap with workCells :=
            st.heap.workCells.set r (setWorkField f v (derefWork st.heap r)) } }
  | none => st

/-- CREATE NEW ENTRY `onClick`:

```
const newWorks = [...editingData.works, { id: Date.now(), title: 'New Archive', img: '', url: '' }];
setEditingData({...editingData, works: newWorks});
```

`now` is the external clock reading `Date.now()`.  A fresh object is
allocated at the end of the heap. -/
def addWork (now : Nat) (st : AppState) : AppState :=
  let newRef := st.heap.workCells.length
  { st with
    heap := { st.heap with workCells := st.heap.workCells ++ [⟨now, "New Archive", "", ""⟩] },
    editing := { st.editing with works := st.editing.works ++ [newRef] } }

/-- PURGE `onClick`:

```
const newW = editingData.works.filter((_, i) => i !== idx);
setEditingData({...editingData, works: newW});
```

The filter drops exactly the element at position `idx` (and keeps
everything when `idx` is out of bounds); no element object is touched.  The
handler contains no `alert` or other report, so the list of emitted notices
is always empty — in particular an out-of-bounds index is a *silent*
no-op. -/
def removeWork (idx : Nat) (st : AppState) : AppState × List String :=
  ({ st with editing :=
      { st.editing with works :=
          (st.editing.works.enum.filter (fun p => p.1 != idx)).map Prod.snd } },
   [])

/-- Targets of `handleFileUpload`. -/
inductive UploadTarget where
  | profile
  | work (id : Nat)
deriving DecidableEq

/-- Helper for the completion of a work-image upload:
`editingData.works.map(w => w.id === target.id ? { ...w, img: base64 } : w)`
allocates a fresh object (`{ ...w, img }`) for every matching element and
keeps the others by reference. -/
def applyWorkUpload (wid : Nat) (b64 : String) : List Nat → Heap → List Nat × Heap
  | [], h => ([], h)
  | r :: rs, h =>
    let w := derefWork h r
    if w.id = wid then
      let r2 := h.workCells.length
      let h2 := { h with workCells := h.workCells ++ [{ w with img := b64 }] }
      let p := applyWorkUpload wid b64 rs h2
      (r2 :: p.1, p.2)
    else
      let p := applyWorkUpload wid b64 rs h
      (r :: p.1, p.2)

/-- Completion of `handleFileUpload`'s asynchronous `FileReader` read
(`reader.onloadend`).  The closure applies the decoded `base64` result to
`captured`, the value of `editingData` captured when the upload was
triggered — with no check that the session that issued the request is
still the live one. -/
def applyUploadResult (captured : SiteDataRef) (target : UploadTarget)
    (b64 : String) (st : AppState) : AppState :=
  match target with
  | .profile => { st with editing := { captured with profileImg := b64 } }
  | .work wid =>
    let p := applyWorkUpload wid b64 captured.works st.heap
    { st with heap := p.2, editing := { captured with works := p.1 } }

/-- `saveToLocal` (COMMIT ARCHIVE, called with `editingData`):

```
setData(newData);
localStorage.setItem('aeju_portfolio_data', JSON.stringify(newData));
setIsAdminOpen(false); setIsAuth(false); setPassInput('');
alert('저장되었습니다.');
```

The in-memory state is replaced *before* the write.  `writeOk` models
whether `localStorage.setItem` succeeds; when it throws, the already
performed `setData` stands, the snapshot is unchanged, and the remaining
statements (including the notice) do not run. -/
def saveToLocal (writeOk : Bool) (st : AppState) : AppState × List String :=
  let st1 := { st with data := st.editing }
  if writeOk then
    ({ st1 with
        storage := some (jsonStringify (siteDataToJson (derefSite st1.heap st1.editing))),
        isAdminOpen := false, isAuth := false, passInput := "" },
     ["저장되었습니다."])
  else (st1, [])

/-- `resetToDefault` (FACTORY RESET): guarded by `window.confirm`
(`confirmed` is the user's answer); removes the snapshot and installs the
module constant `DEFAULT_DATA` — by reference, not by value. -/
def resetToDefault (confirmed : Bool) (st : AppState) : AppState × List String :=
  if confirmed then
    ({ st with
        storage := none, data := defaultRef, editing := defaultRef,
        isAdminOpen := false, isAuth := false },
     ["초기화되었습니다."])
  else (st, [])

/-- The work items of the current working copy (what the admin UI shows
and what a commit would persist), as plain values. -/
def sessionWorks (st : AppState) : List WorkItem :=
  st.editing.works.map (derefWork st.heap)

/-- Well-formedness: every work-item reference of the working copy points
into the heap.  Holds in the initial state and is preserved by every
operation; stated as the hypothesis of the generic session theorems. -/
def worksWF (st : AppState) : Prop :=
  ∀ r ∈ st.editing.works, r < st.heap.workCells.length

/-! # Theorems -/

theorem length_mk (l : List Char) : (String.mk l).length = l.length := rfl

/-- `getYoutubeId` is exactly `extractId` filtered by the length-11 check. -/
theorem getYoutubeId_eq_extractId (url : String) :
    getYoutubeId url =
      (extractId url).bind (fun i => if i.length = 11 then some i else none) := by
  unfold getYoutubeId extractId
  cases lastMatch url.data with
  | none => rfl
  | some rest => simp [length_mk]

example : getYoutubeId ("https://www.youtube.com/watch?v=aqz-KE-bpKQ") = some ("aqz-KE-bpKQ") := by decide
example : getYoutubeId ("") = none := by decide
example : getYoutubeId ("https://youtu.be/dQw4w9WgXcQ") = some ("dQw4w9WgXcQ") := by decide
example : getYoutubeId ("https://www.youtube.com/watch?v=short") = none := by decide

/-! ## String-literal round trip -/

theorem isHexDigit_hexChar (n : Nat) (h : n < 16) : isHexDigit (hexChar n) = true := by
  interval_cases n <;> decide

theorem hexVal_hexChar (n : Nat) (h : n < 16) : hexVal (hexChar n) = n := by
  interval_cases n <;> decide

theorem pStringBody_escList (cs rest : List Char) :
    pStringBody (escList cs ++ ('"' :: rest)) = some (cs, rest) := by
  induction cs with
  | nil =>
    show pStringBody ('"' :: rest) = _
    rw [pStringBody.eq_def]
    simp
  | cons c cs ih =>
    show pStringBody ((escChar c ++ escList cs) ++ ('"' :: rest)) = _
    rw [List.append_assoc]
    unfold escChar
    split_ifs with h1 h2 h3 h4 h5 h6 h7 h8
    · subst h1; rw [pStringBody.eq_def]; simp [ih]
    · subst h2; rw [pStringBody.eq_def]; simp [ih]
    · subst h3; rw [pStringBody.eq_def]; simp [ih]
    · subst h4; rw [pStringBody.eq_def]; simp [ih]
    · subst h5; rw [pStringBody.eq_def]; simp [ih]
    · have hc : c = Char.ofNat 8 := by rw [← h6, Char.ofNat_toNat]
      rw [hc, pStringBody.eq_def]
      simp [ih]
    · have hc : c = Char.ofNat 12 := by rw [← h7, Char.ofNat_toNat]
      rw [hc, pStringBody.eq_def]
      simp [ih]
    · have hhi : c.toNat / 16 < 16 := by omega
      have hlo : c.toNat % 16 < 16 := by omega
      have hv : ((hexVal '0' * 16 + hexVal '0') * 16 + hexVal (hexChar (c.toNat / 16))) * 16 +
          hexVal (hexChar (c.toNat % 16)) = c.toNat := by
        rw [hexVal_hexChar _ hhi, hexVal_hexChar _ hlo]
        have h0 : hexVal '0' = 0 := by decide
        rw [h0]
        omega
      have h0 : isHexDigit '0' = true := by decide
      rw [pStringBody.eq_def]
      simp [h0, isHexDigit_hexChar _ hhi, isHexDigit_hexChar _ hlo, ih, hv, Char.ofNat_toNat]
    · have hge : ¬ c.toNat < 32 := h8
      rw [pStringBody.eq_def]
      simp [h1, h2, hge, ih]

/-! ## Number round trip -/

theorem digitChar_isDigit (n : Nat) (h : n < 10) : (digitChar n).isDigit = true := by
  interval_cases n <;> decide

theorem digitChar_val (n : Nat) (h : n < 10) : (digitChar n).toNat - 48 = n := by
  interval_cases n <;> decide

theorem natDigits_all_digits (n : Nat) : ∀ c ∈ natDigits n, c.isDigit = true := by
  induction n using Nat.strong_induction_on with
  | _ n ih =>
    intro c hc
    rw [natDigits] at hc
    split_ifs at hc with h
    · simp at hc
      exact hc ▸ digitChar_isDigit n h
    · rw [List.mem_append] at hc
      rcases hc with hc | hc
      · exact ih (n / 10) (Nat.div_lt_self (by omega) (by omega)) c hc
      · simp at hc
        exact hc ▸ digitChar_isDigit (n % 10) (Nat.mod_lt _ (by omega))

theorem natDigits_ne_nil (n : Nat) : natDigits n ≠ [] := by
  rw [natDigits]
  split_ifs <;> simp

theorem pDigits_append (ds rest : List Char) (acc : Nat)
    (hd : ∀ c ∈ ds, c.isDigit = true) (hr : headNotDigit rest = true) :
    pDigits (ds ++ rest) acc =
      (ds.foldl (fun a c => a * 10 + (c.toNat - 48)) acc, rest) := by
  induction ds generalizing acc with
  | nil =>
    cases rest with
    | nil => rfl
    | cons r rs =>
      simp [headNotDigit] at hr
      simp [pDigits, hr]
  | cons d ds ih =>
    have hdd : d.isDigit = true := hd d (by simp)
    simp [pDigits, hdd]
    exact ih _ (fun c hc => hd c (List.mem_cons_of_mem d hc))

theorem foldl_natDigits (n : Nat) : ∀ acc,
    (natDigits n).foldl (fun a c => a * 10 + (c.toNat - 48)) acc =
      acc * 10 ^ (natDigits n).length + n := by
  induction n using Nat.strong_induction_on with
  | _ n ih =>
    intro acc
    rw [natDigits]
    split_ifs with h
    · simp [List.foldl, digitChar_val n h]
    · rw [List.foldl_append, ih (n / 10) (Nat.div_lt_self (by omega) (by omega)) acc]
      simp only [List.foldl, List.length_append, List.length_cons, List.length_nil]
      rw [digitChar_val (n % 10) (Nat.mod_lt _ (by omega))]
      have h1 : (acc * 10 ^ (natDigits (n / 10)).length + n / 10) * 10 + n % 10 =
          acc * 10 ^ ((natDigits (n / 10)).length + 1) + (n / 10 * 10 + n % 10) := by
        ring
      have h2 : n / 10 * 10 + n % 10 = n := by omega
      rw [h1, h2]

theorem pDigits_natDigits (n : Nat) (rest : List Char) (hr : headNotDigit rest = true) :
    pDigits (natDigits n ++ rest) 0 = (n, rest) := by
  rw [pDigits_append _ _ _ (natDigits_all_digits n) hr, foldl_natDigits]
  simp

theorem mk_data : ∀ s : String, String.mk s.data = s
  | ⟨_⟩ => rfl

/-! ## Shapes of serializer output -/

theorem jmV_pos (v : JValue) : 1 ≤ jmV v := by
  cases v <;> simp [jmV] <;> omega

theorem jmE_pos (xs : List JValue) : 1 ≤ jmE xs := by
  cases xs <;> simp [jmE] <;> omega

theorem jmM_pos (ms : List (String × JValue)) : 1 ≤ jmM ms := by
  cases ms with
  | nil => simp [jmM]
  | cons m ms =>
    obtain ⟨k, v⟩ := m
    simp [jmM]
    omega

/-! ## Digit, whitespace and number-token lemmas -/

theorem digitChar_isDigitF : ∀ d : Fin 10, (digitChar d.val).isDigit = true := by decide

theorem digitVal_digitChar : ∀ d : Fin 10, digitVal (digitChar d.val) = d := by decide

theorem digitCharF_ne : ∀ d : Fin 10,
    digitChar d.val ≠ '-' ∧ digitChar d.val ≠ '+' ∧ digitChar d.val ≠ '.' := by decide

theorem isDigit_not_ws (c : Char) (h : c.isDigit = true) : isJsonWs c = false := by
  have h1 : c ≠ ' ' := by intro hh; subst hh; exact absurd h (by decide)
  have h2 : c ≠ '\t' := by intro hh; subst hh; exact absurd h (by decide)
  have h3 : c ≠ '\n' := by intro hh; subst hh; exact absurd h (by decide)
  have h4 : c ≠ '\x0d' := by intro hh; subst hh; exact absurd h (by decide)
  simp [isJsonWs, h1, h2, h3, h4]

theorem skipWs_nonws (c : Char) (t : List Char) (h : isJsonWs c = false) :
    skipWs (c :: t) = c :: t := by
  simp [skipWs, h]

theorem numBoundary_facts (c : Char) (u : List Char) (h : numBoundary (c :: u) = true) :
    c.isDigit = false ∧ c ≠ '.' ∧ c ≠ 'e' ∧ c ≠ 'E' := by
  have hx : (c.isDigit || c = '.' || c = 'e' || c = 'E') = false := by
    simpa [numBoundary] using h
  simp only [Bool.or_eq_false_iff, decide_eq_false_iff_not] at hx
  exact ⟨hx.1.1.1, hx.1.1.2, hx.1.2, hx.2⟩

theorem numBoundary_headNotDigit (cs : List Char) (h : numBoundary cs = true) :
    headNotDigit cs = true := by
  cases cs with
  | nil => rfl
  | cons c u =>
    have h1 := (numBoundary_facts c u h).1
    simp [headNotDigit, h1]

theorem natDigits_head (n : Nat) :
    ∃ c t, natDigits n = c :: t ∧ c.isDigit = true ∧ (1 ≤ n → c ≠ '0') := by
  induction n using Nat.strong_induction_on with
  | _ n ih =>
    rw [natDigits]
    split_ifs with h
    · refine ⟨digitChar n, [], rfl, digitChar_isDigit n h, ?_⟩
      intro h1
      interval_cases n <;> decide
    · obtain ⟨c, t, hct, hd, hz⟩ := ih (n / 10) (Nat.div_lt_self (by omega) (by omega))
      exact ⟨c, t ++ [digitChar (n % 10)], by rw [hct]; simp, hd, fun _ => hz (by omega)⟩

theorem renderNum_shape (l : NumLit) :
    ∃ c t, renderNum l = c :: t ∧ (c.isDigit = true ∨ c = '-') := by
  obtain ⟨c, t, hct, hd, -⟩ := natDigits_head l.intPart
  cases hn : l.neg
  · exact ⟨c, t ++ renderFrac l.frac ++ renderExp l.exp,
      by simp [renderNum, hn, hct], Or.inl hd⟩
  · exact ⟨'-', natDigits l.intPart ++ renderFrac l.frac ++ renderExp l.exp,
      by simp [renderNum, hn], Or.inr rfl⟩

theorem pDigitsF_renderDigits (ds : List (Fin 10)) (rest : List Char)
    (hr : headNotDigit rest = true) :
    pDigitsF (renderDigits ds ++ rest) = (ds, rest) := by
  induction ds with
  | nil =>
    cases rest with
    | nil => rfl
    | cons r rs =>
      simp [headNotDigit] at hr
      simp [renderDigits, pDigitsF, hr]
  | cons d ds ih =>
    have hmap : renderDigits (d :: ds) = digitChar d.val :: renderDigits ds := rfl
    rw [hmap, List.cons_append]
    simp [pDigitsF, digitChar_isDigitF d, digitVal_digitChar d, ih]

theorem pSign_not_minus (c : Char) (t : List Char) (h : c ≠ '-') :
    pSign (c :: t) = (false, c :: t) := by
  simp [pSign, h]

theorem pIntPart_natDigits (n : Nat) (rest : List Char) (hr : headNotDigit rest = true) :
    pIntPart (natDigits n ++ rest) = some (n, rest) := by
  by_cases h0 : n = 0
  · subst h0
    have h00 : natDigits 0 = ['0'] := by
      rw [natDigits]
      simp
      decide
    rw [h00]
    simp [pIntPart]
  · obtain ⟨c, t, hct, hcd, hz⟩ := natDigits_head n
    have hc0 : c ≠ '0' := hz (by omega)
    have hp := pDigits_natDigits n rest hr
    rw [hct] at hp ⊢
    simp only [List.cons_append] at hp ⊢
    simp [pIntPart, hc0, hcd, hp]

theorem pFracPart_not_dot (c : Char) (u : List Char) (h : c ≠ '.') :
    pFracPart (c :: u) = ([], c :: u) := by
  simp [pFracPart, h]

theorem pFracPart_render (d : Fin 10) (ds : List (Fin 10)) (rest : List Char)
    (hr : headNotDigit rest = true) :
    pFracPart (('.' :: renderDigits (d :: ds)) ++ rest) = (d :: ds, rest) := by
  have hdig := digitChar_isDigitF d
  have hpd := pDigitsF_renderDigits (d :: ds) rest hr
  simp only [renderDigits, List.map_cons, List.cons_append] at hpd ⊢
  simp [pFracPart, hdig, hpd]

theorem pExpPart_not_e (c : Char) (u : List Char) (h1 : c ≠ 'e') (h2 : c ≠ 'E') :
    pExpPart (c :: u) = (none, c :: u) := by
  simp [pExpPart, h1, h2]

theorem pExpPart_render (sgn : Bool) (d0 : Fin 10) (ds : List (Fin 10)) (rest : List Char)
    (hr : headNotDigit rest = true) :
    pExpPart (renderExp (some (sgn, d0, ds)) ++ rest) = (some (sgn, d0, ds), rest) := by
  have hdig := digitChar_isDigitF d0
  have hne := digitCharF_ne d0
  have hpd := pDigitsF_renderDigits ds rest hr
  cases sgn with
  | false =>
    simp only [renderExp, if_neg Bool.false_ne_true, List.nil_append, List.cons_append]
    simp [pExpPart, pExpSign, hne.1, hne.2.1, hdig, digitVal_digitChar d0, hpd]
  | true =>
    simp only [renderExp, if_pos rfl, List.cons_append, List.singleton_append]
    simp [pExpPart, pExpSign, hdig, digitVal_digitChar d0, hpd]

theorem pNum_renderNum (l : NumLit) (rest : List Char) (hb : numBoundary rest = true) :
    pNum (renderNum l ++ rest) = some (l, rest) := by
  obtain ⟨neg, ip, fr, ex⟩ := l
  have hnd : headNotDigit rest = true := numBoundary_headNotDigit rest hb
  have hExp : pExpPart (renderExp ex ++ rest) = (ex, rest) := by
    cases ex with
    | none =>
      simp only [renderExp, List.nil_append]
      cases rest with
      | nil => rfl
      | cons r rs =>
        obtain ⟨-, -, he1, he2⟩ := numBoundary_facts r rs hb
        exact pExpPart_not_e r rs he1 he2
    | some e =>
      obtain ⟨sgn, d0, ds⟩ := e
      exact pExpPart_render sgn d0 ds rest hnd
  have hexHead : headNotDigit (renderExp ex ++ rest) = true := by
    cases ex with
    | none => simpa [renderExp] using hnd
    | some e =>
      obtain ⟨sgn, d0, ds⟩ := e
      simp [renderExp, headNotDigit]
  have hFrac : pFracPart (renderFrac fr ++ (renderExp ex ++ rest)) =
      (fr, renderExp ex ++ rest) := by
    cases fr with
    | nil =>
      simp only [renderFrac, List.nil_append]
      cases ex with
      | none =>
        simp only [renderExp, List.nil_append]
        cases rest with
        | nil => rfl
        | cons r rs =>
          obtain ⟨-, hdot, -, -⟩ := numBoundary_facts r rs hb
          exact pFracPart_not_dot r rs hdot
      | some e =>
        obtain ⟨sgn, d0, ds⟩ := e
        simp only [renderExp, List.cons_append]
        exact pFracPart_not_dot 'e' _ (by decide)
    | cons d ds =>
      have := pFracPart_render d ds (renderExp ex ++ rest) hexHead
      simpa [renderFrac] using this
  have hfrHead : headNotDigit (renderFrac fr ++ (renderExp ex ++ rest)) = true := by
    cases fr with
    | nil => simpa [renderFrac] using hexHead
    | cons d ds => simp [renderFrac, headNotDigit]
  have hInt : pIntPart (natDigits ip ++ (renderFrac fr ++ (renderExp ex ++ rest))) =
      some (ip, renderFrac fr ++ (renderExp ex ++ rest)) :=
    pIntPart_natDigits ip _ hfrHead
  cases neg with
  | false =>
    obtain ⟨c, t, hct, hcd, -⟩ := natDigits_head ip
    have hcm : c ≠ '-' := by
      intro hh
      rw [hh] at hcd
      exact absurd hcd (by decide)
    have hsign : pSign (natDigits ip ++ (renderFrac fr ++ (renderExp ex ++ rest))) =
        (false, natDigits ip ++ (renderFrac fr ++ (renderExp ex ++ rest))) := by
      rw [hct]
      simp only [List.cons_append]
      exact pSign_not_minus c _ hcm
    simp only [renderNum, if_neg Bool.false_ne_true, List.nil_append, List.append_assoc]
    simp [pNum, hsign, hInt, hFrac, hExp]
  | true =>
    simp only [renderNum, if_pos rfl, List.cons_append, List.singleton_append,
      List.append_assoc]
    have hsign : pSign ('-' :: (natDigits ip ++ (renderFrac fr ++ (renderExp ex ++ rest)))) =
        (true, natDigits ip ++ (renderFrac fr ++ (renderExp ex ++ rest))) := by
      simp [pSign]
    simp [pNum, hsign, hInt, hFrac, hExp]

/-! ## Shapes of serializer output (heads) -/

theorem jstr_head (v : JValue) :
    ∃ c t, jstr v = c :: t ∧ c ≠ ']' ∧ isJsonWs c = false := by
  cases v with
  | null => exact ⟨'n', ['u', 'l', 'l'], by simp [jstr], by decide, by decide⟩
  | bool b =>
    cases b with
    | false => exact ⟨'f', ['a', 'l', 's', 'e'], by simp [jstr], by decide, by decide⟩
    | true => exact ⟨'t', ['r', 'u', 'e'], by simp [jstr], by decide, by decide⟩
  | num l =>
    obtain ⟨c, t, hct, hd⟩ := renderNum_shape l
    refine ⟨c, t, by simp [jstr, hct], ?_, ?_⟩
    · rcases hd with hd | hd
      · intro hh
        rw [hh] at hd
        exact absurd hd (by decide)
      · subst hd
        decide
    · rcases hd with hd | hd
      · exact isDigit_not_ws c hd
      · subst hd
        decide
  | str s =>
    exact ⟨'"', escList s.data ++ ['"'], by simp [jstr, strLit], by decide, by decide⟩
  | arr xs =>
    cases xs with
    | nil => exact ⟨'[', [']'], by simp [jstr], by decide, by decide⟩
    | cons x xs =>
      exact ⟨'[', jstrElems x xs ++ [']'], by simp [jstr], by decide, by decide⟩
  | obj ms =>
    cases ms with
    | nil => exact ⟨'\x7b', ['\x7d'], by simp [jstr], by decide, by decide⟩
    | cons m ms =>
      exact ⟨'\x7b', jstrMembers m ms ++ ['\x7d'], by simp [jstr], by decide, by decide⟩

theorem jstrElems_head (x : JValue) (xs : List JValue) :
    ∃ c t, jstrElems x xs = c :: t ∧ c ≠ ']' ∧ isJsonWs c = false := by
  obtain ⟨c, t, hct, hne, hws⟩ := jstr_head x
  cases xs with
  | nil => exact ⟨c, t, by simp [jstrElems, hct], hne, hws⟩
  | cons y ys =>
    exact ⟨c, t ++ ',' :: jstrElems y ys, by simp [jstrElems, hct], hne, hws⟩

theorem jstrMembers_head (m : String × JValue) (ms : List (String × JValue)) :
    ∃ t, jstrMembers m ms = '"' :: t := by
  obtain ⟨k, v⟩ := m
  cases ms with
  | nil =>
    exact ⟨escList k.data ++ '"' :: ':' :: jstr v, by simp [jstrMembers, strLit]⟩
  | cons m2 ms =>
    exact ⟨escList k.data ++ '"' :: ':' :: (jstr v ++ ',' :: jstrMembers m2 ms),
      by simp [jstrMembers, strLit]⟩

/-! ## Parser stepping lemmas -/

theorem pVB_null (pE : List Char → Option (List JValue × List Char))
    (pM : List Char → Option (List (String × JValue) × List Char)) (rest : List Char) :
    pValueBody pE pM ('n' :: 'u' :: 'l' :: 'l' :: rest) = some (.null, rest) := rfl

theorem pVB_true (pE : List Char → Option (List JValue × List Char))
    (pM : List Char → Option (List (String × JValue) × List Char)) (rest : List Char) :
    pValueBody pE pM ('t' :: 'r' :: 'u' :: 'e' :: rest) = some (.bool true, rest) := rfl

theorem pVB_false (pE : List Char → Option (List JValue × List Char))
    (pM : List Char → Option (List (String × JValue) × List Char)) (rest : List Char) :
    pValueBody pE pM ('f' :: 'a' :: 'l' :: 's' :: 'e' :: rest) = some (.bool false, rest) := rfl

theorem pVB_str (pE : List Char → Option (List JValue × List Char))
    (pM : List Char → Option (List (String × JValue) × List Char)) (rest : List Char) :
    pValueBody pE pM ('"' :: rest) =
      (pStringBody rest).map (fun p => (.str (String.mk p.1), p.2)) := rfl

theorem pVB_arr_nil (pE : List Char → Option (List JValue × List Char))
    (pM : List Char → Option (List (String × JValue) × List Char)) (rest : List Char) :
    pValueBody pE pM ('[' :: ']' :: rest) = some (.arr [], rest) := rfl

theorem pVB_arr_cons (pE : List Char → Option (List JValue × List Char))
    (pM : List Char → Option (List (String × JValue) × List Char)) (c : Char)
    (rest : List Char) (hne : c ≠ ']') (hws : isJsonWs c = false) :
    pValueBody pE pM ('[' :: c :: rest) =
      (pE (c :: rest)).map (fun p => (.arr p.1, p.2)) := by
  rw [pValueBody.eq_def]
  simp [skipWs, hws, hne]

theorem pVB_obj_nil (pE : List Char → Option (List JValue × List Char))
    (pM : List Char → Option (List (String × JValue) × List Char)) (rest : List Char) :
    pValueBody pE pM ('\x7b' :: '\x7d' :: rest) = some (.obj [], rest) := rfl

theorem pVB_obj_cons (pE : List Char → Option (List JValue × List Char))
    (pM : List Char → Option (List (String × JValue) × List Char)) (c : Char)
    (rest : List Char) (hne : c ≠ '\x7d') (hws : isJsonWs c = false) :
    pValueBody pE pM ('\x7b' :: c :: rest) =
      (pM (c :: rest)).map (fun p => (.obj p.1, p.2)) := by
  rw [pValueBody.eq_def]
  simp [skipWs, hws, hne]

theorem isDigit_not_start (c : Char) (h : c.isDigit = true) :
    c ≠ '\x7b' ∧ c ≠ '[' ∧ c ≠ '"' ∧ c ≠ 'f' ∧ c ≠ 't' ∧ c ≠ 'n' := by
  refine ⟨?_, ?_, ?_, ?_, ?_, ?_⟩
  all_goals intro hh
  all_goals subst hh
  all_goals exact absurd h (by decide)

theorem pVB_num (pE : List Char → Option (List JValue × List Char))
    (pM : List Char → Option (List (String × JValue) × List Char)) (c : Char)
    (rest : List Char) (h : c.isDigit = true ∨ c = '-') :
    pValueBody pE pM (c :: rest) =
      match pNum (c :: rest) with
      | some p => some (.num p.1, p.2)
      | none => none := by
  rcases h with h | h
  · obtain ⟨h1, h2, h3, h4, h5, h6⟩ := isDigit_not_start c h
    rw [pValueBody.eq_def]
    simp [h, h1, h2, h3, h4, h5, h6]
  · subst h
    rw [pValueBody.eq_def]
    simp

theorem pValue_zero : pValue 0 = fun _ => none := rfl

theorem pValue_succ (f : Nat) : pValue (f + 1) = pValueBody (pElems f) (pMembers f) := rfl

theorem pElems_succ (f : Nat) : pElems (f + 1) = pElemsBody (pValue f) (pElems f) := rfl

theorem pMembers_succ (f : Nat) :
    pMembers (f + 1) = pMembersBody (pValue f) (pMembers f) := rfl

/-- Completeness of the parser on serializer output, for every fuel level
at least the value's measure. -/
theorem parse_complete (f : Nat) :
    (∀ v rest, jmV v ≤ f → numBoundary rest = true →
      pValue f (jstr v ++ rest) = some (v, rest)) ∧
    (∀ x xs rest, jmE (x :: xs) ≤ f → numBoundary rest = true →
      pElems f (jstrElems x xs ++ (']' :: rest)) = some (x :: xs, rest)) ∧
    (∀ k v ms rest, jmM ((k, v) :: ms) ≤ f → numBoundary rest = true →
      pMembers f (jstrMembers (k, v) ms ++ ('\x7d' :: rest)) = some ((k, v) :: ms, rest)) := by
  induction f with
  | zero =>
    refine ⟨?_, ?_, ?_⟩
    · intro v rest hm _
      exact absurd hm (by have := jmV_pos v; omega)
    · intro x xs rest hm _
      exact absurd hm (by have := jmE_pos (x :: xs); omega)
    · intro k v ms rest hm _
      exact absurd hm (by have := jmM_pos ((k, v) :: ms); omega)
  | succ f ih =>
    obtain ⟨ihV, ihE, ihM⟩ := ih
    refine ⟨?_, ?_, ?_⟩
    · intro v rest hm hr
      rw [pValue_succ]
      cases v with
      | null => simp [jstr, pVB_null]
      | bool b =>
        cases b with
        | false => simp [jstr, pVB_false]
        | true => simp [jstr, pVB_true]
      | num l =>
        obtain ⟨c, t, hct, hcd⟩ := renderNum_shape l
        have hp := pNum_renderNum l rest hr
        simp only [jstr]
        rw [hct] at hp ⊢
        simp only [List.cons_append] at hp ⊢
        rw [pVB_num _ _ c (t ++ rest) hcd, hp]
      | str s =>
        simp only [jstr, strLit, List.cons_append, List.append_assoc, List.singleton_append]
        rw [pVB_str]
        simp [pStringBody_escList, mk_data]
      | arr xs =>
        cases xs with
        | nil => simp [jstr, pVB_arr_nil]
        | cons x xs =>
          obtain ⟨c, t, hct, hne, hws⟩ := jstrElems_head x xs
          have hfe : jmE (x :: xs) ≤ f := by
            simp only [jmV] at hm
            omega
          have he := ihE x xs rest hfe hr
          have hback : jstrElems x xs ++ (']' :: rest) = c :: (t ++ (']' :: rest)) := by
            rw [hct]
            simp
          simp only [jstr, List.cons_append, List.append_assoc, List.singleton_append,
            List.nil_append]
          rw [hback, pVB_arr_cons _ _ c _ hne hws, ← hback, he]
          rfl
      | obj ms =>
        cases ms with
        | nil => simp [jstr, pVB_obj_nil]
        | cons m ms =>
          obtain ⟨k, v⟩ := m
          obtain ⟨t, hct⟩ := jstrMembers_head (k, v) ms
          have hfm : jmM ((k, v) :: ms) ≤ f := by
            simp only [jmV] at hm
            omega
          have hmem := ihM k v ms rest hfm hr
          have hback : jstrMembers (k, v) ms ++ ('\x7d' :: rest) =
              '"' :: (t ++ ('\x7d' :: rest)) := by
            rw [hct]
            simp
          simp only [jstr, List.cons_append, List.append_assoc, List.singleton_append,
            List.nil_append]
          rw [hback, pVB_obj_cons _ _ '"' _ (by decide) (by decide), ← hback, hmem]
          rfl
    · intro x xs rest hm hr
      rw [pElems_succ]
      cases xs with
      | nil =>
        have hfx : jmV x ≤ f := by
          simp only [jmE] at hm
          omega
        have hv := ihV x (']' :: rest) hfx (by rfl)
        simp only [jstrElems]
        simp [pElemsBody, hv, skipWs, isJsonWs]
      | cons y ys =>
        have h1 : jmV x ≤ f := by
          simp only [jmE] at hm
          have := jmE_pos ys
          omega
        have h2 : jmE (y :: ys) ≤ f := by
          simp only [jmE] at hm ⊢
          have := jmV_pos x
          omega
        have hv := ihV x (',' :: (jstrElems y ys ++ (']' :: rest))) h1 (by rfl)
        have he := ihE y ys rest h2 hr
        obtain ⟨c, t, hct, -, hws⟩ := jstrElems_head y ys
        have hsw : skipWs (jstrElems y ys ++ (']' :: rest)) =
            jstrElems y ys ++ (']' :: rest) := by
          rw [hct]
          simp only [List.cons_append]
          exact skipWs_nonws c _ hws
        simp only [jstrElems, List.cons_append, List.append_assoc]
        simp [pElemsBody, hv, he, hsw, skipWs, isJsonWs]
    · intro k v ms rest hm hr
      rw [pMembers_succ]
      cases ms with
      | nil =>
        have h1 : jmV v ≤ f := by
          simp only [jmM] at hm
          omega
        have hv := ihV v ('\x7d' :: rest) h1 (by rfl)
        obtain ⟨c, t, hct, -, hws⟩ := jstr_head v
        have hsw : skipWs (jstr v ++ ('\x7d' :: rest)) = jstr v ++ ('\x7d' :: rest) := by
          rw [hct]
          simp only [List.cons_append]
          exact skipWs_nonws c _ hws
        simp only [jstrMembers, strLit, List.cons_append, List.append_assoc,
          List.singleton_append]
        simp [pMembersBody, pStringBody_escList, hsw, hv, mk_data, skipWs, isJsonWs]
      | cons m2 ms2 =>
        obtain ⟨k2, v2⟩ := m2
        have h1 : jmV v ≤ f := by
          simp only [jmM] at hm
          have := jmM_pos ms2
          omega
        have h2 : jmM ((k2, v2) :: ms2) ≤ f := by
          simp only [jmM] at hm ⊢
          have := jmV_pos v
          omega
        have hv := ihV v (',' :: (jstrMembers (k2, v2) ms2 ++ ('\x7d' :: rest))) h1 (by rfl)
        have hmm := ihM k2 v2 ms2 rest h2 hr
        obtain ⟨c, t, hct, -, hws⟩ := jstr_head v
        have hswv : skipWs (jstr v ++ (',' :: (jstrMembers (k2, v2) ms2 ++
            ('\x7d' :: rest)))) =
            jstr v ++ (',' :: (jstrMembers (k2, v2) ms2 ++ ('\x7d' :: rest))) := by
          rw [hct]
          simp only [List.cons_append]
          exact skipWs_nonws c _ hws
        obtain ⟨t2, hct2⟩ := jstrMembers_head (k2, v2) ms2
        have hswm : skipWs (jstrMembers (k2, v2) ms2 ++ ('\x7d' :: rest)) =
            jstrMembers (k2, v2) ms2 ++ ('\x7d' :: rest) := by
          rw [hct2]
          simp only [List.cons_append]
          exact skipWs_nonws '"' _ (by decide)
        simp only [jstrMembers, strLit, List.cons_append, List.append_assoc,
          List.singleton_append]
        simp [pMembersBody, pStringBody_escList, hswv, hv, hswm, hmm, mk_data,
          skipWs, isJsonWs]

theorem sizeOf_jvalue_pos (v : JValue) : 1 ≤ sizeOf v := by
  cases v <;> simp_arith

/-- The parse fuel `2·length + 2` used by `jsonParse` dominates the measure
of the serialized value. -/
theorem jm_le_len (N : Nat) :
    (∀ v : JValue, sizeOf v ≤ N → jmV v + 1 ≤ 2 * (jstr v).length) ∧
    (∀ (x : JValue) (xs : List JValue), sizeOf x + sizeOf xs ≤ N →
      jmE (x :: xs) ≤ 2 * (jstrElems x xs).length + 1) ∧
    (∀ (k : String) (v : JValue) (ms : List (String × JValue)), sizeOf v + sizeOf ms ≤ N →
      jmM ((k, v) :: ms) ≤ 2 * (jstrMembers (k, v) ms).length + 1) := by
  induction N using Nat.strong_induction_on with
  | _ N ih =>
    refine ⟨?_, ?_, ?_⟩
    · intro v hs
      cases v with
      | null => simp [jmV, jstr]
      | bool b => cases b <;> simp [jmV, jstr]
      | num n =>
        have h1 : 1 ≤ (renderNum n).length := by
          obtain ⟨c, t, hct, -⟩ := renderNum_shape n
          rw [hct]
          simp
        simp only [jmV, jstr]
        omega
      | str s =>
        simp [jmV, jstr, strLit]
      | arr xs =>
        cases xs with
        | nil => simp [jmV, jmE, jstr]
        | cons x xs =>
          simp only [JValue.arr.sizeOf_spec, List.cons.sizeOf_spec] at hs
          have hpos : 1 ≤ sizeOf x := sizeOf_jvalue_pos x
          obtain ⟨-, ihE, -⟩ := ih (N - 1) (by omega)
          have hE := ihE x xs (by omega)
          simp only [jmV, jstr, List.length_cons, List.length_append, List.length_nil]
          omega
      | obj ms =>
        cases ms with
        | nil => simp [jmV, jmM, jstr]
        | cons m ms =>
          obtain ⟨k, v⟩ := m
          simp only [JValue.obj.sizeOf_spec, List.cons.sizeOf_spec, Prod.mk.sizeOf_spec] at hs
          have hpos : 1 ≤ sizeOf v := sizeOf_jvalue_pos v
          obtain ⟨-, -, ihM⟩ := ih (N - 1) (by omega)
          have hM := ihM k v ms (by omega)
          simp only [jmV, jstr, List.length_cons, List.length_append, List.length_nil]
          omega
    · intro x xs hs
      cases xs with
      | nil =>
        have hnil : sizeOf ([] : List JValue) = 1 := rfl
        have hpos : 1 ≤ sizeOf x := sizeOf_jvalue_pos x
        obtain ⟨ihV, -, -⟩ := ih (N - 1) (by omega)
        have hV := ihV x (by omega)
        simp only [jmE, jstrElems]
        omega
      | cons y ys =>
        simp only [List.cons.sizeOf_spec] at hs
        have hpos : 1 ≤ sizeOf x := sizeOf_jvalue_pos x
        have hpos2 : 1 ≤ sizeOf y := sizeOf_jvalue_pos y
        obtain ⟨ihV, ihE, -⟩ := ih (N - 1) (by omega)
        have hV := ihV x (by omega)
        have hE := ihE y ys (by omega)
        simp only [jmE] at hE
        simp only [jmE, jstrElems, List.length_append, List.length_cons]
        omega
    · intro k v ms hs
      cases ms with
      | nil =>
        have hnil : sizeOf ([] : List (String × JValue)) = 1 := rfl
        have hpos : 1 ≤ sizeOf v := sizeOf_jvalue_pos v
        obtain ⟨ihV, -, -⟩ := ih (N - 1) (by omega)
        have hV := ihV v (by omega)
        simp only [jmM, jstrMembers, strLit, List.length_append, List.length_cons]
        omega
      | cons m2 ms2 =>
        obtain ⟨k2, v2⟩ := m2
        simp only [List.cons.sizeOf_spec, Prod.mk.sizeOf_spec] at hs
        have hpos : 1 ≤ sizeOf v := sizeOf_jvalue_pos v
        have hpos2 : 1 ≤ sizeOf v2 := sizeOf_jvalue_pos v2
        obtain ⟨ihV, -, ihM⟩ := ih (N - 1) (by omega)
        have hV := ihV v (by omega)
        have hM := ihM k2 v2 ms2 (by omega)
        simp only [jmM] at hM
        simp only [jmM, jstrMembers, strLit, List.length_append, List.length_cons]
        omega

/-- Round trip of the modelled JSON builtins: parsing a serialized value
recovers exactly that value. -/
theorem jsonParse_jsonStringify (v : JValue) : jsonParse (jsonStringify v) = some v := by
  have hlen : jmV v + 1 ≤ 2 * (jstr v).length := (jm_le_len (sizeOf v)).1 v (Nat.le_refl _)
  have hfuel : jmV v ≤ 2 * (jstr v).length + 2 := by omega
  have hp := (parse_complete (2 * (jstr v).length + 2)).1 v [] hfuel rfl
  rw [List.append_nil] at hp
  obtain ⟨c, t, hct, -, hws⟩ := jstr_head v
  have hsw : skipWs (jstr v) = jstr v := by
    rw [hct]
    exact skipWs_nonws c t hws
  have hdata : (String.mk (jstr v)).data = jstr v := rfl
  unfold jsonParse jsonStringify
  rw [hdata, hsw, hp]
  rfl

theorem seqOption_careerOfJson (l : List CareerItem) :
    seqOption careerOfJson (l.map careerToJson) = some l := by
  induction l with
  | nil => rfl
  | cons c l ih => simp [seqOption, careerToJson, careerOfJson, ih]

theorem seqOption_workOfJson (l : List WorkItem) :
    seqOption workOfJson (l.map workToJson) = some l := by
  induction l with
  | nil => rfl
  | cons w l ih => simp [seqOption, workToJson, workOfJson, natLit, ih]

/-- Decoding the JSON image of a `SiteData` value recovers it exactly. -/
theorem siteDataOfJson_toJson (d : SiteData) :
    siteDataOfJson (siteDataToJson d) = some d := by
  simp [siteDataToJson, siteDataOfJson, seqOption_careerOfJson, seqOption_workOfJson]

example : jsonParse ("42") = some (.num (natLit 42)) := rfl
example : jsonParse ("[1,2]") = some (.arr [.num (natLit 1), .num (natLit 2)]) := rfl
example : jsonParse ("nope") = none := rfl
example : jsonParse ("") = none := rfl
example : jsonParse ("[1,2") = none := rfl

/-! ## List helpers for the session operations -/

/-- `filter((_, i) => i !== idx)` over an enumerated list drops exactly the
element at position `idx` (all of them when `idx` is in range of the
enumeration offset, none when it is before it). -/
theorem enumFrom_filter_ne_map {α : Type*} (l : List α) : ∀ n idx : Nat,
    ((List.enumFrom n l).filter (fun p => p.1 != idx)).map Prod.snd =
      if idx < n then l else l.eraseIdx (idx - n) := by
  induction l with
  | nil =>
    intro n idx
    simp
  | cons a l ih =>
    intro n idx
    by_cases h : n = idx
    · subst h
      simp only [List.enumFrom_cons, List.filter_cons]
      have hb : ((n, a).1 != n) = false := by simp
      simp only [hb, Bool.false_eq_true, if_false]
      rw [ih (n + 1) n, if_pos (by omega), if_neg (by omega), Nat.sub_self]
      rfl
    · have hb : ((n, a).1 != idx) = true := by simp [h]
      simp only [List.enumFrom_cons, List.filter_cons, hb, if_true, List.map_cons]
      rw [ih (n + 1) idx]
      by_cases h2 : idx < n
      · rw [if_pos (by omega), if_pos h2]
      · rw [if_neg (by omega), if_neg h2]
        have h4 : idx - n = (idx - (n + 1)) + 1 := by omega
        rw [h4]
        rfl

theorem map_eraseIdx {α β : Type*} (f : α → β) : ∀ (l : List α) (i : Nat),
    (l.eraseIdx i).map f = (l.map f).eraseIdx i := by
  intro l
  induction l with
  | nil => intro i; rfl
  | cons a l ih =>
    intro i
    cases i with
    | zero => rfl
    | succ i => simp [List.eraseIdx_cons_succ, ih]

theorem nodup_getElem_not_mem_eraseIdx {α : Type*} : ∀ (l : List α) (i : Nat) (a : α),
    l.Nodup → l[i]? = some a → a ∉ l.eraseIdx i := by
  intro l
  induction l with
  | nil =>
    intro i a _ h
    simp at h
  | cons b l ih =>
    intro i a hn h
    cases i with
    | zero =>
      simp at h
      subst h
      rw [List.eraseIdx_zero, List.tail_cons]
      exact (List.nodup_cons.mp hn).1
    | succ i =>
      simp only [List.getElem?_cons_succ] at h
      rw [List.eraseIdx_cons_succ]
      simp only [List.mem_cons, not_or]
      refine ⟨?_, ih i a (List.nodup_cons.mp hn).2 h⟩
      intro he
      subst he
      exact (List.nodup_cons.mp hn).1 (List.getElem?_mem h)

/-- The PURGE handler's `filter` is exactly removal at an index. -/
theorem removeWork_editing_works (st : AppState) (idx : Nat) :
    (removeWork idx st).1.editing.works = st.editing.works.eraseIdx idx := by
  show ((List.enumFrom 0 st.editing.works).filter (fun p => p.1 != idx)).map Prod.snd = _
  rw [enumFrom_filter_ne_map]
  simp

theorem removeWork_heap (st : AppState) (idx : Nat) :
    (removeWork idx st).1.heap = st.heap := rfl

theorem removeWork_notices (st : AppState) (idx : Nat) :
    (removeWork idx st).2 = [] := rfl

theorem sessionWorks_removeWork (st : AppState) (idx : Nat) :
    sessionWorks (removeWork idx st).1 = (sessionWorks st).eraseIdx idx := by
  unfold sessionWorks
  rw [removeWork_heap, removeWork_editing_works, map_eraseIdx]

/-- Appending a fresh cell does not change what existing in-bounds
references denote. -/
theorem derefWork_append (h : Heap) (w : WorkItem) (r : Nat)
    (hr : r < h.workCells.length) :
    derefWork { h with workCells := h.workCells ++ [w] } r = derefWork h r := by
  unfold derefWork
  simp [List.getD, List.getElem?_append_left hr]

theorem derefWork_append_last (h : Heap) (w : WorkItem) :
    derefWork { h with workCells := h.workCells ++ [w] } h.workCells.length = w := by
  unfold derefWork
  simp [List.getD, List.getElem?_concat_length]

/-- CREATE NEW ENTRY appends exactly one item, with title `New Archive`,
empty `img`/`url`, and the clock reading as `id`. -/
theorem sessionWorks_addWork (st : AppState) (now : Nat) (h : worksWF st) :
    sessionWorks (addWork now st) = sessionWorks st ++ [⟨now, "New Archive", "", ""⟩] := by
  unfold sessionWorks addWork
  simp only [List.map_append, List.map_cons, List.map_nil]
  rw [List.map_congr_left (fun r hr => derefWork_append st.heap _ r (h r hr)),
    derefWork_append_last st.heap ⟨now, "New Archive", "", ""⟩]

theorem worksWF_addWork (st : AppState) (now : Nat) (h : worksWF st) :
    worksWF (addWork now st) := by
  intro r hr
  unfold addWork at hr ⊢
  simp only [List.mem_append, List.mem_singleton] at hr
  simp only [List.length_append, List.length_cons, List.length_nil]
  rcases hr with hr | hr
  · have := h r hr
    omega
  · omega

theorem removeWork_eq (st : AppState) (idx : Nat) :
    (removeWork idx st).1 =
      { st with editing := { st.editing with works := st.editing.works.eraseIdx idx } } :=
  congrArg (fun ws => { st with editing := { st.editing with works := ws } })
    (removeWork_editing_works st idx)

/-! # Claims -/

/-- Claim C1: `resolve(work)` follows the fallback chain first-match-wins:
a non-empty `work.img` is returned verbatim; otherwise an identifier
extracted from `work.url` by the known URL shapes yields the canonical
thumbnail URL exactly when its length is 11 (any other length is a
non-match, not an error); otherwise the fixed placeholder is returned.
Including the three concrete examples from the specification. -/
theorem C1_thumbnail_resolution :
    (∀ w : WorkItem, w.img ≠ "" → getThumbnail w = w.img) ∧
    (∀ w : WorkItem, w.img = "" → ∀ i, extractId w.url = some i → i.length = 11 →
      getThumbnail w = thumbUrl i) ∧
    (∀ w : WorkItem, w.img = "" → ∀ i, extractId w.url = some i → i.length ≠ 11 →
      getThumbnail w = placeholderRef) ∧
    (∀ w : WorkItem, w.img = "" → extractId w.url = none → getThumbnail w = placeholderRef) ∧
    getThumbnail ⟨1, "", "", "https://www.youtube.com/watch?v=aqz-KE-bpKQ"⟩ =
      thumbUrl ("aqz-KE-bpKQ") ∧
    getThumbnail ⟨1, "", "", ""⟩ = placeholderRef ∧
    (∀ (n : Nat) (t u : String), getThumbnail ⟨n, t, "X", u⟩ = "X") := by
  refine ⟨?_, ?_, ?_, ?_, by decide, by decide, ?_⟩
  · intro w h
    simp [getThumbnail, h]
  · intro w h i hex hlen
    simp [getThumbnail, h, getYoutubeId_eq_extractId, hex, hlen]
  · intro w h i hex hlen
    simp [getThumbnail, h, getYoutubeId_eq_extractId, hex, hlen]
  · intro w h hex
    simp [getThumbnail, h, getYoutubeId_eq_extractId, hex]
  · intro n t u
    rfl

/-- Witness for C1 at concrete inputs. -/
theorem C1_thumbnail_resolution_witness :
    getThumbnail ⟨2, "t", "imgX", "u"⟩ = "imgX" ∧
    getThumbnail ⟨3, "t", "", "https://youtu.be/dQw4w9WgXcQ"⟩ = thumbUrl ("dQw4w9WgXcQ") :=
  ⟨C1_thumbnail_resolution.1 ⟨2, "t", "imgX", "u"⟩ (by decide),
   C1_thumbnail_resolution.2.1 ⟨3, "t", "", "https://youtu.be/dQw4w9WgXcQ"⟩ rfl
     ("dQw4w9WgXcQ") (by decide) (by decide)⟩

/-- Claim C2 (code bug): opening an edit session does *not* capture an
independent copy.  `setEditingData(data)` installs the committed object
itself, and the career/work field mutators assign into the shared element
objects after only a shallow array spread.  Concretely: from the initial
state, opening a session, editing the first career item's date to `X`, and
cancelling leaves the *committed* data mutated (its first career date is
now `X`), contradicting byte-for-byte cancel isolation. -/
theorem C2_cancel_isolation_violated :
    derefSite initState.heap initState.data = defaultSiteData ∧
    (let st2 := closeAdmin (updateCareerItem 0 CareerField.date ("X")
      (handleAdminTrigger initState))
     derefSite st2.heap st2.data ≠ defaultSiteData ∧
     (derefSite st2.heap st2.data).career.map CareerItem.date =
       ["X", "2021", "2012 — 2017"]) := by
  decide

/-- Claim C3: round-trip persistence.  Committing the working value `S`
stores its serialization; loading that snapshot parses back exactly the
JSON image of `S`, which decodes to a `SiteData` structurally equal
to `S`. -/
theorem C3_commit_load_roundtrip (st : AppState) (S : SiteData)
    (h : derefSite st.heap st.editing = S) :
    (saveToLocal true st).1.storage = some (jsonStringify (siteDataToJson S)) ∧
    jsonLoadOutcome ((saveToLocal true st).1.storage) =
      LoadOutcome.loaded (siteDataToJson S) ∧
    siteDataOfJson (siteDataToJson S) = some S := by
  have h1 : (saveToLocal true st).1.storage = some (jsonStringify (siteDataToJson S)) := by
    simp [saveToLocal, h]
  refine ⟨h1, ?_, siteDataOfJson_toJson S⟩
  rw [h1]
  have hps := jsonParse_jsonStringify (siteDataToJson S)
  have hne : jsonStringify (siteDataToJson S) ≠ "" := by
    intro hh
    rw [hh] at hps
    exact Option.noConfusion hps
  simp [jsonLoadOutcome, hne, hps]

/-- Witness for C3 at the initial state. -/
theorem C3_commit_load_roundtrip_witness :
    (saveToLocal true initState).1.storage =
      some (jsonStringify (siteDataToJson defaultSiteData)) ∧
    jsonLoadOutcome ((saveToLocal true initState).1.storage) =
      LoadOutcome.loaded (siteDataToJson defaultSiteData) ∧
    siteDataOfJson (siteDataToJson defaultSiteData) = some defaultSiteData :=
  C3_commit_load_roundtrip initState defaultSiteData (by decide)

/-- Claim C4, counterexample: the snapshot `42` is valid JSON but not
parseable as a `SiteData`, yet the load effect installs the parsed value
verbatim instead of keeping the default with a diagnostic. -/
theorem C4_load_counterexample :
    parseAsSiteData ("42") = none ∧
    jsonLoadOutcome (some ("42")) = LoadOutcome.loaded (.num (natLit 42)) ∧
    (∀ b, jsonLoadOutcome (some ("42")) ≠ LoadOutcome.kept b) := by
  refine ⟨rfl, rfl, ?_⟩
  intro b h
  rw [show jsonLoadOutcome (some ("42")) = LoadOutcome.loaded (.num (natLit 42)) from rfl] at h
  exact LoadOutcome.noConfusion h

/-- Claim C4 as amended: `load` never raises (it is a total function); a
missing snapshot keeps the default without a diagnostic, and — because
`if (saved)` is a truthiness test — so does an empty-string snapshot; a
non-empty snapshot that is not syntactically valid JSON keeps the default
and reports a diagnostic; any syntactically valid JSON value is installed
verbatim, with no `SiteData`-shape validation.  Syntactic validity is
`JSON.parse` acceptance: e.g. the leading-zero numeral `042` is rejected,
while negative, leading-whitespace and fractional snapshots (`-1`, ` 42`,
`1.5`) are accepted and installed. -/
theorem C4_load_amended :
    jsonLoadOutcome none = LoadOutcome.kept false ∧
    jsonLoadOutcome (some ("")) = LoadOutcome.kept false ∧
    (∀ s, s ≠ "" → jsonParse s = none → jsonLoadOutcome (some s) = LoadOutcome.kept true) ∧
    (∀ s v, jsonParse s = some v → jsonLoadOutcome (some s) = LoadOutcome.loaded v) ∧
    jsonParse ("042") = none ∧
    jsonParse ("-1") = some (.num ⟨true, 1, [], none⟩) ∧
    jsonParse (" 42") = some (.num (natLit 42)) ∧
    jsonParse ("1.5") = some (.num ⟨false, 1, [(5 : Fin 10)], none⟩) := by
  refine ⟨rfl, rfl, ?_, ?_, rfl, rfl, rfl, rfl⟩
  · intro s hne h
    simp [jsonLoadOutcome, hne, h]
  · intro s v h
    have hne : s ≠ "" := by
      intro hh
      rw [hh] at h
      exact Option.noConfusion h
    simp [jsonLoadOutcome, hne, h]

/-- Witness for C4 (amended) on a malformed snapshot. -/
theorem C4_load_amended_witness :
    jsonLoadOutcome (some ("nope")) = LoadOutcome.kept true :=
  C4_load_amended.2.2.1 ("nope") (by decide) rfl

/-- Claim C5 (code bug): commit is not atomic with respect to persistence
failure.  `saveToLocal` performs `setData(newData)` *before*
`localStorage.setItem`; when the write fails, the in-memory committed data
already holds the new value while the snapshot keeps the old one — the
previously committed state is no longer the visible state. -/
theorem C5_commit_divergence_eval :
    (let st := setBio ("B") (handleAdminTrigger initState)
     let p := saveToLocal false st
     p.1.data.bio = "B" ∧ st.data.bio = defaultBio ∧ ("B" : String) ≠ defaultBio ∧
     p.1.storage = st.storage ∧ p.2 = []) := by
  decide

/-- Claim C6, counterexample: the appended work item's title is
`New Archive`, not the empty string required by the claim. -/
theorem C6_addWork_counterexample :
    sessionWorks (addWork 1000 initState) =
      defaultWorkCells ++ [⟨1000, "New Archive", "", ""⟩] ∧
    ("New Archive" : String) ≠ "" := by
  decide

/-- Claim C6 as amended: `addWork` (whose id is the external clock reading
`Date.now()`) appends exactly one work item with title `New Archive` and
empty `img`/`url`; id-uniqueness is preserved provided the clock reading
differs from every existing id; two successive calls append items with ids
equal to the two clock readings (distinct only when the readings differ). -/
theorem C6_addWork_amended (st : AppState) (now : Nat) (h : worksWF st) :
    sessionWorks (addWork now st) = sessionWorks st ++ [⟨now, "New Archive", "", ""⟩] ∧
    (((sessionWorks st).map WorkItem.id).Nodup → now ∉ (sessionWorks st).map WorkItem.id →
      ((sessionWorks (addWork now st)).map WorkItem.id).Nodup) ∧
    (∀ n2, sessionWorks (addWork n2 (addWork now st)) =
      sessionWorks st ++ [⟨now, "New Archive", "", ""⟩, ⟨n2, "New Archive", "", ""⟩]) := by
  refine ⟨sessionWorks_addWork st now h, ?_, ?_⟩
  · intro hnd hnin
    rw [sessionWorks_addWork st now h]
    simp [List.nodup_append, hnd, hnin]
  · intro n2
    rw [sessionWorks_addWork _ n2 (worksWF_addWork st now h), sessionWorks_addWork st now h]
    simp

/-- Witness for C6 (amended) at the initial state. -/
theorem C6_addWork_amended_witness :
    sessionWorks (addWork 1000 initState) =
      sessionWorks initState ++ [⟨1000, "New Archive", "", ""⟩] ∧
    ((sessionWorks (addWork 1000 initState)).map WorkItem.id).Nodup :=
  ⟨(C6_addWork_amended initState 1000 (by unfold worksWF; decide)).1,
   (C6_addWork_amended initState 1000 (by unfold worksWF; decide)).2.1 (by decide) (by decide)⟩

/-- Claim C7, counterexample: on an out-of-bounds index the claim requires
the no-op to be reported as invalid, but the `filter`-based handler emits
no notice at all — index 10 on the three-item initial session leaves the
state unchanged and the notice list empty. -/
theorem C7_removeWork_counterexample :
    (sessionWorks initState).length ≤ 10 ∧
    (removeWork 10 initState).1 = initState ∧
    (removeWork 10 initState).2 = [] := by
  decide

/-- Claim C7 as amended: `removeWork(index)` removes exactly the entry at
that index, leaving the remaining entries with their original values and
relative order (no renumbering, heap untouched); under unique ids the
removed id is absent afterwards; an out-of-bounds index makes the operation
a no-op that leaves the state entirely unchanged — but the no-op is
*silent*: no run of the operation, in or out of bounds, emits any
notice. -/
theorem C7_removeWork_amended (st : AppState) (idx : Nat) :
    (removeWork idx st).1.heap = st.heap ∧
    (removeWork idx st).2 = [] ∧
    sessionWorks (removeWork idx st).1 = (sessionWorks st).eraseIdx idx ∧
    (idx < (sessionWorks st).length →
      (sessionWorks (removeWork idx st).1).length + 1 = (sessionWorks st).length ∧
      sessionWorks (removeWork idx st).1 =
        (sessionWorks st).take idx ++ (sessionWorks st).drop (idx + 1) ∧
      (((sessionWorks st).map WorkItem.id).Nodup → ∀ w, (sessionWorks st)[idx]? = some w →
        w.id ∉ (sessionWorks (removeWork idx st).1).map WorkItem.id)) ∧
    ((sessionWorks st).length ≤ idx → (removeWork idx st).1 = st) := by
  refine ⟨rfl, rfl, sessionWorks_removeWork st idx, ?_, ?_⟩
  · intro hlt
    refine ⟨?_, ?_, ?_⟩
    · rw [sessionWorks_removeWork, List.length_eraseIdx_of_lt hlt]
      omega
    · rw [sessionWorks_removeWork, List.eraseIdx_eq_take_drop_succ]
    · intro hnd w hw
      rw [sessionWorks_removeWork, map_eraseIdx]
      apply nodup_getElem_not_mem_eraseIdx _ idx _ hnd
      rw [List.getElem?_map, hw]
      rfl
  · intro hle
    have hlen : st.editing.works.length ≤ idx := by
      simpa [sessionWorks] using hle
    rw [removeWork_eq, List.eraseIdx_of_length_le hlen]

/-- Witness for C7 (amended) on the initial state at index 1. -/
theorem C7_removeWork_amended_witness :
    sessionWorks (removeWork 1 initState).1 = (sessionWorks initState).eraseIdx 1 ∧
    (sessionWorks (removeWork 1 initState).1).length + 1 = (sessionWorks initState).length :=
  ⟨(C7_removeWork_amended initState 1).2.2.1,
   ((C7_removeWork_amended initState 1).2.2.2.1 (by decide)).1⟩

/-- Claim C8: `verify(candidate)` unlocks the gate iff the candidate is
exactly the configured secret; any other candidate leaves the gate state
unchanged, clears the candidate input, and surfaces the failure notice. -/
theorem C8_verify_secret (st : AppState) :
    (st.passInput = adminSecret → handlePasswordSubmit st = ({ st with isAuth := true }, [])) ∧
    (st.passInput ≠ adminSecret →
      handlePasswordSubmit st =
        ({ st with passInput := "" }, ["Key가 올바르지 않습니다."]) ∧
      (handlePasswordSubmit st).1.isAuth = st.isAuth) ∧
    (st.isAuth = false →
      (((handlePasswordSubmit st).1.isAuth = true) ↔ st.passInput = adminSecret)) := by
  refine ⟨?_, ?_, ?_⟩
  · intro h
    simp [handlePasswordSubmit, h]
  · intro h
    refine ⟨?_, ?_⟩
    · simp [handlePasswordSubmit, h]
    · simp [handlePasswordSubmit, h]
  · intro h
    by_cases hp : st.passInput = adminSecret
    · simp [handlePasswordSubmit, hp]
    · simp [handlePasswordSubmit, hp, h]

/-- Witness for C8: the empty candidate of the initial state fails. -/
theorem C8_verify_secret_witness :
    handlePasswordSubmit initState =
      ({ initState with passInput := "" }, ["Key가 올바르지 않습니다."]) ∧
    (handlePasswordSubmit initState).1.isAuth = initState.isAuth :=
  (C8_verify_secret initState).2.1 (by decide)

/-- Claim C9 (code bug): reset installs the module constant `DEFAULT_DATA`
by reference, so when a prior aliased edit mutated one of its item objects,
reset does *not* restore the built-in default value.  Concretely: open a
session, edit the first career date to `X`, cancel, then confirm a factory
reset — the snapshot is cleared and `DEFAULT_DATA` is installed, yet the
visible data differs from the default constant; a second reset is a no-op
on the state. -/
theorem C9_reset_eval :
    (let st3 := (resetToDefault true (closeAdmin (updateCareerItem 0 CareerField.date ("X")
      (handleAdminTrigger initState)))).1
     st3.storage = none ∧ st3.data = defaultRef ∧
     derefSite st3.heap st3.data ≠ defaultSiteData ∧
     (resetToDefault true st3).1 = st3) := by
  decide

/-- Claim C10 (code bug): the upload completion closure applies its result
to the `editingData` value captured at trigger time, with no check that the
issuing session is still live.  Concretely: session A sets its bio to
`STALE` and triggers an upload; A is cancelled and a new session B opens
(working bio is the default again); the late completion then overwrites
session B's working value with A's stale data plus the decoded image. -/
theorem C10_stale_upload_eval :
    (let captured := (setBio ("STALE") (handleAdminTrigger initState)).editing
     let stB := handleAdminTrigger (closeAdmin (setBio ("STALE") (handleAdminTrigger initState)))
     let stC := applyUploadResult captured UploadTarget.profile ("IMG") stB
     stB.editing.bio = defaultBio ∧ stC.editing.bio = "STALE" ∧
     stC.editing.profileImg = "IMG" ∧ stC.editing ≠ stB.editing) := by
  decide

end Portfolio

